import Mathlib

/-!
Verification of the tabJoint table-reconciliation tool (src/jointabs.py,
src/read.py) against its natural-language specification.

The embedding models a pandas DataFrame as a `Table`: an ordered list of
column names, a parallel list of column dtypes, and a list of rows, each
row a list of cell `Value`s positionally aligned with the column names.
Cell values are tagged Missing (pandas NaN/None), Numeric, or Text;
numbers are modelled as integers since no claim depends on float
arithmetic.  All definitions are executable and structurally recursive so
that concrete instances evaluate by `decide`/`rfl`.
-/

namespace TabJoint

/-- A cell value: missing (NaN/None), a number, or a text string. -/
inductive Value where
  | missing : Value
  | num : Int → Value
  | text : String → Value
deriving DecidableEq

/-- A pandas column dtype tag: numeric dtypes, the pandas `str` dtype, or
`object` (the dtype of generic / untyped columns). -/
inductive Dtype where
  | numeric : Dtype
  | str : Dtype
  | object : Dtype
deriving DecidableEq

/-- A DataFrame: ordered column names, their dtypes (positionally
aligned), and the rows (each positionally aligned with `colNames`). -/
structure Table where
  colNames : List String
  dtypes : List Dtype
  rows : List (List Value)
deriving DecidableEq

/-- Index of the first occurrence of a column name in a list of names. -/
def idxOf? (col : String) : List String → Option Nat
  | [] => none
  | c :: cs => if c = col then some 0 else (idxOf? col cs).map (· + 1)

/-- Value of column `col` in row `row` laid out along `names`
(missing if the column is absent). -/
def lookupVal (names : List String) (row : List Value) (col : String) : Value :=
  match idxOf? col names with
  | some i => row.getD i Value.missing
  | none => Value.missing

/-- Cell of row `r` of table `t` at column `c`. -/
def Table.cell (t : Table) (r : List Value) (c : String) : Value :=
  lookupVal t.colNames r c

/-- The values of column `c` of `t`, top to bottom (pandas `t[c]`). -/
def Table.colVals (t : Table) (c : String) : List Value :=
  t.rows.map (fun r => t.cell r c)

/-- Dtype of column `c` of `t` (`object` if absent). -/
def Table.colDtype (t : Table) (c : String) : Dtype :=
  match idxOf? c t.colNames with
  | some i => t.dtypes.getD i Dtype.object
  | none => Dtype.object

/-- pandas `DataFrame.empty`: true when either axis has length 0. -/
def Table.isEmpty (t : Table) : Bool :=
  t.rows.isEmpty || t.colNames.isEmpty

/-- `pd.isna` of a cell. -/
def Value.isna : Value → Bool
  | .missing => true
  | _ => false

/-! ### The inner join (`df1.merge(df2, on=joint_keys, how="inner")`)

Only the per-shared-column value series of the joined frame are consumed
by the two detectors, so the join is modelled as the list of matching row
pairs; `joint[col+'_df1']` is the df1-side value of `col` over these
pairs, `joint[col+'_df2']` the df2-side value.  Pair order follows the
left table (order is irrelevant to every property proved below, which
are all `all`/`any`/membership facts). -/

/-- The tuple of key values of row `r` of table `t`. -/
def keyTuple (t : Table) (keys : List String) (r : List Value) : List Value :=
  keys.map (fun k => t.cell r k)

/-- Row pairs of the inner join of `df1` and `df2` on `keys`. -/
def joinedPairs (df1 df2 : Table) (keys : List String) :
    List (List Value × List Value) :=
  df1.rows.flatMap (fun r1 =>
    (df2.rows.filter (fun r2 =>
      decide (keyTuple df1 keys r1 = keyTuple df2 keys r2))).map (fun r2 => (r1, r2)))

/-- `df1.columns.intersection(df2.columns).difference(joint_keys)`:
the shared non-key columns.  (pandas returns them sorted; we keep the
left table's order — every result proved below is order-insensitive.) -/
def colIntersec (df1 df2 : Table) (keys : List String) : List String :=
  df1.colNames.filter (fun c =>
    decide (c ∈ df2.colNames) && !decide (c ∈ keys))

/-! ### String normalization (`normalize_str_series`)

`normalize_str_series` applies, per element: `astype(str)` (identity on
text; `"nan"` for NaN; decimal for numbers), `str.casefold`, replace
`'-'`→`' '`, expand `ä`→`ae`, `ö`→`oe`, `ü`→`ue`, replace `'-'`→`' '`
again, collapse each whitespace run (`\s+`) to one space, and strip.
The casefold model covers the mappings the data exercises: ASCII
uppercase, `ß`→`ss`, and uppercase umlauts; all other characters are
left unchanged. -/

/-- The 26 ASCII uppercase letters. -/
def upperAscii : List Char :=
  ['A','B','C','D','E','F','G','H','I','J','K','L','M',
   'N','O','P','Q','R','S','T','U','V','W','X','Y','Z']

/-- One character of Python `str.casefold` (restricted model, see above). -/
def pyCaseFoldChar (c : Char) : List Char :=
  if c = 'ß' then ['s', 's']
  else if c = 'Ä' then ['ä']
  else if c = 'Ö' then ['ö']
  else if c = 'Ü' then ['ü']
  else if decide (c ∈ upperAscii) then [Char.ofNat (c.toNat + 32)]
  else [c]

/-- `str.casefold` over a character list. -/
def caseFold (l : List Char) : List Char :=
  l.flatMap pyCaseFoldChar

/-- `str.replace(a, b)` with single characters, `regex=False`. -/
def replaceChar (a b : Char) (l : List Char) : List Char :=
  l.map (fun c => if c = a then b else c)

/-- `str.replace(a, rep)` where `rep` is a multi-character string. -/
def expandChar (a : Char) (rep : List Char) (l : List Char) : List Char :=
  l.flatMap (fun c => if c = a then rep else [c])

/-- Python regex `\s` (ASCII part; the claims exercise no Unicode spaces). -/
def isWs (c : Char) : Bool :=
  c = ' ' || c = '\t' || c = '\n' || c = '\r' || c = '\x0b' || c = '\x0c'

/-- `re.sub(r"\s+", " ", s)`: each maximal whitespace run becomes one
space.  The boolean flag records whether the previous character was
whitespace (i.e. we are inside a run already emitted). -/
def collapseWsAux : Bool → List Char → List Char
  | _, [] => []
  | prevWs, c :: rest =>
    if isWs c then
      if prevWs then collapseWsAux true rest
      else ' ' :: collapseWsAux true rest
    else c :: collapseWsAux false rest

def collapseWs (l : List Char) : List Char :=
  collapseWsAux false l

/-- `str.strip()` from the left. -/
def lstripWs (l : List Char) : List Char :=
  l.dropWhile isWs

/-- `str.strip()` from the right. -/
def rstripWs (l : List Char) : List Char :=
  (l.reverse.dropWhile isWs).reverse

/-- `str.strip()`. -/
def stripWs (l : List Char) : List Char :=
  rstripWs (lstripWs l)

/-- The character-rewriting stages of `normalize_str_series`, in source
order: casefold, hyphen→space, `ä`→`ae`, `ö`→`oe`, `ü`→`ue`,
hyphen→space again. -/
def preNorm (s : List Char) : List Char :=
  replaceChar '-' ' '
    (expandChar 'ü' ['u','e'] (expandChar 'ö' ['o','e'] (expandChar 'ä' ['a','e']
      (replaceChar '-' ' ' (caseFold s)))))

/-- The per-string normalizer inside `normalize_str_series`: the
character stages, then whitespace collapsing, then strip. -/
def normalizeStr (s : List Char) : List Char :=
  stripWs (collapseWs (preNorm s))

/-- `astype(str)` of a cell: NaN prints `"nan"`, numbers print in
decimal (pandas floats print a trailing `.0`; no claim exercises
number-to-string coercion), text is unchanged. -/
def pyStrOfValue : Value → List Char
  | .missing => "nan".data
  | .num n => (toString n).data
  | .text s => s.data

/-- `normalize_str_series` applied to one cell. -/
def normalizeValue (v : Value) : List Char :=
  normalizeStr (pyStrOfValue v)

/-! ### The two conflict detectors -/

/-- `pd.api.types.is_numeric_dtype`. -/
def isNumericDtype : Dtype → Bool
  | .numeric => true
  | _ => false

/-- One row of the per-column `equal` series of `sanity_check_dataframes`:
numeric/numeric compares raw values, a `str`-dtype left side compares
normalized values, anything else compares raw values; a missing value on
either side always counts as equal.  (pandas evaluates `NaN == NaN` to
False where we evaluate `missing = missing` to true; the difference is
absorbed by the `isna` disjuncts, so the series is identical.) -/
def equalCell (dt1 dt2 : Dtype) (v1 v2 : Value) : Bool :=
  if isNumericDtype dt1 && isNumericDtype dt2 then
    decide (v1 = v2) || v1.isna || v2.isna
  else if dt1 = Dtype.str then
    decide (normalizeValue v1 = normalizeValue v2) || v1.isna || v2.isna
  else
    decide (v1 = v2) || v1.isna || v2.isna

/-- The `equal` series computed by `sanity_check_dataframes` for shared
column `col` over the joined rows. -/
def sanityEqualSeries (df1 df2 : Table) (keys : List String) (col : String) :
    List Bool :=
  (joinedPairs df1 df2 keys).map (fun p =>
    equalCell (df1.colDtype col) (df2.colDtype col)
      (df1.cell p.1 col) (df2.cell p.2 col))

/-- The per-column loop of `sanity_check_dataframes`: on the first column
whose `conflict = ~equal` series has any true entry it prints and raises
`ValueError('Debug')` (modelled as `Except.error "Debug"`); otherwise it
collects the `equal` series. -/
def sanityLoop (df1 df2 : Table) (keys : List String) :
    List String → Except String (List (List Bool))
  | [] => .ok []
  | col :: rest =>
    let equal := sanityEqualSeries df1 df2 keys col
    if (equal.map (fun b => !b)).any id then
      .error "Debug"
    else
      (sanityLoop df1 df2 keys rest).map (fun cs => equal :: cs)

/-- `sanity_check_dataframes(df1, df2, joint_keys)`.  Returns `.ok true`
when there is no shared non-key column, `.ok false` when the inner join
is empty, `.error "Debug"` when any conflict is found, and otherwise the
conjunction of every `equal` entry. -/
def sanity_check_dataframes (df1 df2 : Table) (keys : List String) :
    Except String Bool :=
  let cols := colIntersec df1 df2 keys
  if cols.isEmpty then .ok true
  else if (joinedPairs df1 df2 keys).isEmpty then .ok false
  else
    (sanityLoop df1 df2 keys cols).map (fun comparisons =>
      comparisons.all (fun l => l.all id))

/-- One row of the `conflict` series of `parse_conflicts`:
`(~s1.isna()) & (~s2.isna()) & (s1 != s2)` — raw comparison, no
normalization, no dtype dispatch. -/
def conflictCell (v1 v2 : Value) : Bool :=
  !v1.isna && !v2.isna && !decide (v1 = v2)

/-- The `conflict` series computed by `parse_conflicts` for shared
column `col` over the joined rows. -/
def parseConflictSeries (df1 df2 : Table) (keys : List String) (col : String) :
    List Bool :=
  (joinedPairs df1 df2 keys).map (fun p =>
    conflictCell (df1.cell p.1 col) (df2.cell p.2 col))

/-- ASCII lowering, for `proceed.lower()` and extension lowering. -/
def asciiLowerChar (c : Char) : Char :=
  if decide (c ∈ upperAscii) then Char.ofNat (c.toNat + 32) else c

def lowerString (s : String) : String :=
  String.mk (s.data.map asciiLowerChar)

/-- The per-column loop of `parse_conflicts`.  `responses` scripts the
`input()` prompt (consumed only when a conflict fires; an exhausted
script reads as `""`).  Returns the collected `conflict` series and the
columns for which the prompt was shown.  An answer `y` (lowered)
executes `conflict[:] = False`; any other answer hits the source's
no-op statement `conflict[:] == True`, leaving the series unchanged. -/
def parseLoop (df1 df2 : Table) (keys : List String) :
    List String → List String → List (List Bool) × List String
  | [], _ => ([], [])
  | col :: rest, responses =>
    let conflict := parseConflictSeries df1 df2 keys col
    if conflict.any id then
      let resp := responses.headD ""
      let conflict2 :=
        if lowerString resp = "y" then conflict.map (fun _ => false) else conflict
      let next := parseLoop df1 df2 keys rest responses.tail
      (conflict2 :: next.1, col :: next.2)
    else
      let next := parseLoop df1 df2 keys rest responses
      (conflict :: next.1, next.2)

/-- `parse_conflicts(df1, df2, joint_keys)`.  First component: the
returned boolean (`pd.concat(comparisons, axis=1).all().all()` over the
`conflict` series); second component: the columns that triggered the
interactive prompt (empty when no prompt was ever shown). -/
def parse_conflicts (df1 df2 : Table) (keys : List String)
    (responses : List String) : Bool × List String :=
  if df1.isEmpty || df2.isEmpty then (false, [])
  else
    let cols := colIntersec df1 df2 keys
    if cols.isEmpty then (true, [])
    else if (joinedPairs df1 df2 keys).isEmpty then (false, [])
    else
      let r := parseLoop df1 df2 keys cols responses
      (r.1.all (fun l => l.all id), r.2)

/-! ### Consolidation (`merge_patient_dataframes`)

`pd.concat(dfs, axis=0, ignore_index=True)` takes the union of the
column sets (in order of first appearance) and stacks all rows, filling
absent columns with NaN.  `combined.groupby(patient_col,
as_index=False).first()` drops rows whose key is NaN (pandas
`dropna=True` default), forms one output row per distinct key, places
the key column first, and fills every other column with the first
non-NaN value of the group in vertical order (NaN when the whole group
is NaN).  pandas additionally sorts the group keys (`sort=True`
default); we keep first-appearance order — every property proved below
is order-insensitive (membership, counts, per-key cells). -/

/-- Union of the column names of all tables, in order of first
appearance. -/
def unionCols (dfs : List Table) : List String :=
  dfs.foldl (fun acc t => acc ++ t.colNames.filter (fun c => !decide (c ∈ acc))) []

/-- Re-lay a row of `t` along the column list `cols` (NaN for columns
`t` lacks). -/
def reindexRow (t : Table) (cols : List String) (r : List Value) : List Value :=
  cols.map (fun c => t.cell r c)

/-- `pd.concat(dfs, axis=0, ignore_index=True)`.  The dtype of a union
column is taken from the first table that has it (pandas promotes
dtypes on concat; nothing downstream of concat inspects dtypes, so the
tag is inert). -/
def concatTables (dfs : List Table) : Table :=
  let cols := unionCols dfs
  { colNames := cols
    dtypes := cols.map (fun c =>
      ((dfs.find? (fun t => decide (c ∈ t.colNames))).map
        (fun t => t.colDtype c)).getD Dtype.object)
    rows := dfs.flatMap (fun t => t.rows.map (reindexRow t cols)) }

/-- Distinct values in order of first appearance, skipping `seen`. -/
def firstSeenAux : List Value → List Value → List Value
  | [], _ => []
  | v :: vs, seen =>
    if v ∈ seen then firstSeenAux vs seen else v :: firstSeenAux vs (v :: seen)

def firstSeen (l : List Value) : List Value :=
  firstSeenAux l []

/-- `GroupBy.first` on one column of one group: the first non-NaN value,
NaN if there is none. -/
def firstNonMissing (vs : List Value) : Value :=
  (vs.find? (fun v => !v.isna)).getD Value.missing

/-- The group labels of `t.groupby(key)`: distinct non-NaN key values
(pandas `dropna=True`; first-appearance order, see above). -/
def groupKeys (t : Table) (key : String) : List Value :=
  firstSeen ((t.rows.map (fun r => t.cell r key)).filter (fun v => !v.isna))

/-- The collapsed output row of group `k`: the key value first
(`as_index=False`), then, for every non-key column, the first non-NaN
value of the group in vertical order. -/
def groupRow (t : Table) (key : String) (rest : List String) (k : Value) :
    List Value :=
  k :: rest.map (fun c =>
    firstNonMissing ((t.rows.filter (fun r =>
      decide (t.cell r key = k))).map (fun r => t.cell r c)))

/-- The result table of `t.groupby(key, as_index=False).first()`. -/
def groupbyFirstTable (t : Table) (key : String) : Table :=
  let rest := t.colNames.filter (fun c => !decide (c = key))
  { colNames := key :: rest
    dtypes := t.colDtype key :: rest.map t.colDtype
    rows := (groupKeys t key).map (groupRow t key rest) }

/-- `combined.groupby(key, as_index=False).first()`; `.error "KeyError"`
when the key column does not exist (what pandas raises). -/
def groupbyFirst (t : Table) (key : String) : Except String Table :=
  match idxOf? key t.colNames with
  | none => .error "KeyError"
  | some _ => .ok (groupbyFirstTable t key)

/-- `merge_patient_dataframes(dfs, patient_col)`.  `pd.concat` of an
empty list raises `ValueError("No objects to concatenate")`. -/
def merge_patient_dataframes (dfs : List Table) (patient_col : String) :
    Except String Table :=
  if dfs.isEmpty then .error "No objects to concatenate"
  else groupbyFirst (concatTables dfs) patient_col

/-- First row of `t` whose `key` cell is `k`. -/
def lookupRowByKey (t : Table) (key : String) (k : Value) :
    Option (List Value) :=
  t.rows.find? (fun r => decide (t.cell r key = k))

/-! ### The loader (`read_file`, identical selection logic in
src/jointabs.py and src/read.py)

Actual file decoding is external I/O; what the source decides is which
reader the extension selects, so `read_file` is modelled as returning
the selected reader kind — and, faithfully to the source, `none` (Python
`None`) when the extension is not in the registry. -/

inductive ReaderKind where
  | csv : ReaderKind
  | tsv : ReaderKind
  | xlsx : ReaderKind
  | xls : ReaderKind
deriving DecidableEq

/-- The extensions of `get_readers()`. -/
def readerExts : List String := [".csv", ".tsv", ".xlsx", ".xls"]

/-- Dictionary lookup `readers[extension]`. -/
def readerFor (e : String) : Option ReaderKind :=
  if e = ".csv" then some .csv
  else if e = ".tsv" then some .tsv
  else if e = ".xlsx" then some .xlsx
  else if e = ".xls" then some .xls
  else none

/-- The final path component (chars after the last `/`). -/
def basenameChars (file : String) : List Char :=
  (file.data.reverse.takeWhile (fun c => !decide (c = '/'))).reverse

/-- `PurePath.suffix`: with `i` the index of the last dot of the name,
the suffix is `name[i:]` when `0 < i < len(name) - 1`, else empty (no
dot, leading dot, or trailing dot). -/
def suffixOf (name : List Char) : List Char :=
  let after := name.reverse.takeWhile (fun c => !decide (c = '.'))
  if after.length = name.length then []
  else if after.length = 0 then []
  else if name.length - after.length - 1 = 0 then []
  else '.' :: after.reverse

/-- `Path(file).suffix.lower()`. -/
def fileSuffixLower (file : String) : String :=
  String.mk ((suffixOf (basenameChars file)).map asciiLowerChar)

/-- `read_file(file)`: the reader selected by the lowered extension,
`none` when the extension is not registered. -/
def read_file (file : String) : Option ReaderKind :=
  readerFor (fileSuffixLower file)

/-! ### Normal forms for the idempotence of `normalizeStr` -/

/-- A character every stage of `normalizeStr` leaves untouched:
casefold-fixed, not a hyphen, not a lowercase umlaut, and — if
whitespace — exactly a plain space. -/
def canonChar (c : Char) : Prop :=
  pyCaseFoldChar c = [c] ∧ c ≠ '-' ∧ c ≠ 'ä' ∧ c ≠ 'ö' ∧ c ≠ 'ü' ∧
    (isWs c = true → c = ' ')

/-- No two adjacent whitespace characters. -/
def NoTwoWs (a b : Char) : Prop :=
  ¬(isWs a = true ∧ isWs b = true)

/-- Strings on which `normalizeStr` is the identity: canonical
characters only, no adjacent whitespace, no leading or trailing
whitespace. -/
def NormalForm (l : List Char) : Prop :=
  (∀ c ∈ l, canonChar c) ∧ List.Chain' NoTwoWs l ∧
    (∀ c ∈ l.head?, isWs c = false) ∧ (∀ c ∈ l.getLast?, isWs c = false)

/-! ### Concrete tables for witnesses, counterexamples and failing
inputs -/

/-- `[{Patient: 1, Age: 40}]` with a numeric `Age` column. -/
def tAge40 : Table := ⟨["Patient", "Age"], [.object, .numeric], [[.num 1, .num 40]]⟩

/-- `[{Patient: 1, Age: 41}]` with a numeric `Age` column. -/
def tAge41 : Table := ⟨["Patient", "Age"], [.object, .numeric], [[.num 1, .num 41]]⟩

/-- `[{Patient: 1, x: NaN}]` with a numeric `x` column. -/
def tXMissing : Table := ⟨["Patient", "x"], [.object, .numeric], [[.num 1, .missing]]⟩

/-- `[{Patient: 1, x: 7}]` with a numeric `x` column. -/
def tX7 : Table := ⟨["Patient", "x"], [.object, .numeric], [[.num 1, .num 7]]⟩

/-- `[{Patient: 1, x: 5}]` with a numeric `x` column. -/
def tX5 : Table := ⟨["Patient", "x"], [.object, .numeric], [[.num 1, .num 5]]⟩

/-- `[{Patient: 1, City: "New York"}]` with a text (`str`-dtype) `City`
column. -/
def tCityNY : Table := ⟨["Patient", "City"], [.object, .str], [[.num 1, .text "New York"]]⟩

/-- `[{Patient: 1, City: "new-york"}]` with a text (`str`-dtype) `City`
column. -/
def tCityny : Table := ⟨["Patient", "City"], [.object, .str], [[.num 1, .text "new-york"]]⟩

/-- A table with columns but no rows. -/
def tEmpty : Table := ⟨["Patient", "Age"], [.object, .numeric], []⟩

/-- `[{Patient: NaN, x: 5}]`: a row whose entity key is missing. -/
def tKeyMissing : Table := ⟨["Patient", "x"], [.object, .numeric], [[.missing, .num 5]]⟩

/-- `[{Sex: "m"}]`: a table that lacks the `Patient` key column. -/
def tNoKey : Table := ⟨["Sex"], [.object], [[.text "m"]]⟩

/-- `[{Patient: 1, A: 1}]`: shares only the key with `tOnlyB`. -/
def tOnlyA : Table := ⟨["Patient", "A"], [.object, .numeric], [[.num 1, .num 1]]⟩

/-- `[{Patient: 1, B: 2}]`: shares only the key with `tOnlyA`. -/
def tOnlyB : Table := ⟨["Patient", "B"], [.object, .numeric], [[.num 1, .num 2]]⟩

/-- The input of the spec's consolidation-coalesce scenario:
`(key=1, x=NaN)` stacked above `(key=1, x=5)`. -/
def dfsCoalesce : List Table := [tXMissing, tX5]

/-- An input list in which the second table lacks the key column. -/
def dfsNoKey : List Table := [tAge40, tNoKey]

/-- The consolidated output of `dfsCoalesce`: Patient 1 with `x = 5`. -/
def mCoalesce : Table := ⟨["Patient", "x"], [.object, .numeric], [[.num 1, .num 5]]⟩

/-! ## Theorems -/

/-- A missing value on either side makes `sanity_check_dataframes`'s
`equal` entry true, in every dtype branch. -/
theorem equalCell_of_missing (dt1 dt2 : Dtype) (v1 v2 : Value)
    (h : v1 = Value.missing ∨ v2 = Value.missing) :
    equalCell dt1 dt2 v1 v2 = true := by
  rcases h with rfl | rfl <;>
    (rw [equalCell]; split
     · simp [Value.isna]
     · split <;> simp [Value.isna])

/-- A missing value on either side, or raw equality, makes
`parse_conflicts`'s `conflict` entry false. -/
theorem conflictCell_eq_false (v1 v2 : Value)
    (h : v1 = Value.missing ∨ v2 = Value.missing ∨ v1 = v2) :
    conflictCell v1 v2 = false := by
  rcases h with rfl | rfl | rfl <;> simp [conflictCell, Value.isna]

/-- C2: for every pair of tables, every shared non-key column, and every
row of their inner join on the key columns, a missing value on either
side is never reported as a conflict, whatever the column dtypes:
`parse_conflicts`'s `conflict` entry for the row is `false` and
`sanity_check_dataframes`'s `equal` entry is `true`. -/
theorem missing_side_never_conflict (df1 df2 : Table) (keys : List String)
    (col : String) (i : Nat) (r1 r2 : List Value)
    (hp : (joinedPairs df1 df2 keys)[i]? = some (r1, r2))
    (hm : df1.cell r1 col = Value.missing ∨ df2.cell r2 col = Value.missing) :
    (parseConflictSeries df1 df2 keys col)[i]? = some false ∧
      (sanityEqualSeries df1 df2 keys col)[i]? = some true := by
  constructor
  · rw [parseConflictSeries, List.getElem?_map, hp, Option.map_some']
    rw [conflictCell_eq_false _ _ (Or.elim hm Or.inl (fun h => Or.inr (Or.inl h)))]
  · rw [sanityEqualSeries, List.getElem?_map, hp, Option.map_some']
    rw [equalCell_of_missing _ _ _ _ hm]

/-- Witness for `missing_side_never_conflict`: Patient 1 has `x = NaN`
on the left and `x = 7` on the right; the row is not a conflict. -/
theorem missing_side_never_conflict_witness :
    (joinedPairs tXMissing tX7 ["Patient"])[0]? =
        some ([Value.num 1, Value.missing], [Value.num 1, Value.num 7]) ∧
      (parseConflictSeries tXMissing tX7 ["Patient"] "x")[0]? = some false ∧
      (sanityEqualSeries tXMissing tX7 ["Patient"] "x")[0]? = some true := by
  refine ⟨by decide, ?_, ?_⟩
  · exact (missing_side_never_conflict tXMissing tX7 ["Patient"] "x" 0
      [Value.num 1, Value.missing] [Value.num 1, Value.num 7]
      (by decide) (by decide)).1
  · exact (missing_side_never_conflict tXMissing tX7 ["Patient"] "x" 0
      [Value.num 1, Value.missing] [Value.num 1, Value.num 7]
      (by decide) (by decide)).2

/-- C1: the detector `sanity_check_dataframes` violates the claim: on
tables that disagree on `Age` for Patient 1 it raises
`ValueError('Debug')` instead of returning a verdict — a leftover debug
`raise` that contradicts the function's own docstring ("Check if all
values ... are equal") and makes its `return` unreachable on conflict.
`parse_conflicts` at the same input returns without raising. -/
theorem sanity_check_raises_on_conflict :
    sanity_check_dataframes tAge40 tAge41 ["Patient"] = Except.error "Debug" ∧
      parse_conflicts tAge40 tAge41 ["Patient"] [] = (true, ["Age"]) :=
  ⟨rfl, rfl⟩

/-- C9: when either table is empty, `parse_conflicts` returns `False` —
"no conflict detected" per its docstring — and never shows a prompt. -/
theorem parse_conflicts_empty_reports_no_conflict (df1 df2 : Table)
    (keys : List String) (responses : List String)
    (h : (df1.isEmpty || df2.isEmpty) = true) :
    parse_conflicts df1 df2 keys responses = (false, []) := by
  simp [parse_conflicts, h]

/-- Witness for `parse_conflicts_empty_reports_no_conflict` with a
zero-row left table. -/
theorem parse_conflicts_empty_witness :
    (tEmpty.isEmpty || tAge40.isEmpty) = true ∧
      parse_conflicts tEmpty tAge40 ["Patient"] [] = (false, []) :=
  ⟨by decide,
    parse_conflicts_empty_reports_no_conflict tEmpty tAge40 ["Patient"] [] (by decide)⟩

/-- When no column ever conflicts, the `parse_conflicts` loop collects
exactly the per-column `conflict` series and never prompts. -/
theorem parseLoop_of_no_conflict (df1 df2 : Table) (keys : List String)
    (cols : List String) (responses : List String)
    (h : ∀ col ∈ cols, ∀ b ∈ parseConflictSeries df1 df2 keys col, b = false) :
    parseLoop df1 df2 keys cols responses =
      (cols.map (parseConflictSeries df1 df2 keys), []) := by
  induction cols generalizing responses with
  | nil => rfl
  | cons c cs ih =>
    have hc : (parseConflictSeries df1 df2 keys c).any id = false := by
      rw [List.any_eq_false]
      intro x hx
      simp [h c (List.mem_cons_self c cs) x hx]
    simp only [parseLoop, hc, Bool.false_eq_true, if_false, List.map_cons]
    rw [ih responses (fun col hcol => h col (List.mem_cons_of_mem _ hcol))]

/-- C10: `parse_conflicts` uses an inconsistent boolean convention: two
non-empty tables sharing no non-key column give `True`, while two
non-empty tables with shared columns, a non-empty join, and every joined
value pair missing-or-equal give `False` — in both cases without ever
invoking the interactive prompt. -/
theorem parse_conflicts_boolean_convention (df1 df2 : Table)
    (keys : List String) (responses : List String)
    (h1 : df1.isEmpty = false) (h2 : df2.isEmpty = false) :
    (colIntersec df1 df2 keys = [] →
        parse_conflicts df1 df2 keys responses = (true, [])) ∧
      (colIntersec df1 df2 keys ≠ [] → joinedPairs df1 df2 keys ≠ [] →
        (∀ col ∈ colIntersec df1 df2 keys, ∀ p ∈ joinedPairs df1 df2 keys,
            df1.cell p.1 col = Value.missing ∨ df2.cell p.2 col = Value.missing ∨
              df1.cell p.1 col = df2.cell p.2 col) →
          parse_conflicts df1 df2 keys responses = (false, [])) := by
  constructor
  · intro hcols
    simp [parse_conflicts, h1, h2, hcols]
  · intro hcols hjoin hcons
    have hser : ∀ col ∈ colIntersec df1 df2 keys,
        ∀ b ∈ parseConflictSeries df1 df2 keys col, b = false := by
      intro col hcol b hb
      rw [parseConflictSeries] at hb
      obtain ⟨p, hp, rfl⟩ := List.mem_map.mp hb
      exact conflictCell_eq_false _ _ (hcons col hcol p hp)
    obtain ⟨c0, cs, hc0⟩ : ∃ c0 cs, colIntersec df1 df2 keys = c0 :: cs := by
      cases hcl : colIntersec df1 df2 keys with
      | nil => exact absurd hcl hcols
      | cons a as => exact ⟨a, as, rfl⟩
    obtain ⟨p0, ps, hp0⟩ : ∃ p0 ps, joinedPairs df1 df2 keys = p0 :: ps := by
      cases hjl : joinedPairs df1 df2 keys with
      | nil => exact absurd hjl hjoin
      | cons a as => exact ⟨a, as, rfl⟩
    have hmem : conflictCell (df1.cell p0.1 c0) (df2.cell p0.2 c0)
        ∈ parseConflictSeries df1 df2 keys c0 := by
      rw [parseConflictSeries]
      exact List.mem_map_of_mem _ (hp0 ▸ List.mem_cons_self _ _)
    have hall : ((colIntersec df1 df2 keys).map
        (parseConflictSeries df1 df2 keys)).all (fun l => l.all id) = false := by
      rw [List.all_eq_false]
      refine ⟨parseConflictSeries df1 df2 keys c0,
        List.mem_map_of_mem _ (hc0 ▸ List.mem_cons_self _ _), ?_⟩
      rw [Bool.not_eq_true, List.all_eq_false]
      refine ⟨_, hmem, ?_⟩
      rw [Bool.not_eq_true, id_eq]
      exact hser c0 (hc0 ▸ List.mem_cons_self _ _) _ hmem
    have hce : (colIntersec df1 df2 keys).isEmpty = false := by
      rw [hc0]; rfl
    have hje : (joinedPairs df1 df2 keys).isEmpty = false := by
      rw [hp0]; rfl
    simp only [parse_conflicts, h1, h2, Bool.or_self, Bool.false_eq_true,
      if_false, hce, hje,
      parseLoop_of_no_conflict df1 df2 keys _ responses hser, hall]

/-- Witness for `parse_conflicts_boolean_convention`: tables sharing
only the key give `(true, [])`; a consistent shared column (`5` vs NaN
for Patient 1) gives `(false, [])`, prompt never shown. -/
theorem parse_conflicts_boolean_convention_witness :
    (colIntersec tOnlyA tOnlyB ["Patient"] = [] ∧
        parse_conflicts tOnlyA tOnlyB ["Patient"] [] = (true, [])) ∧
      (colIntersec tX5 tXMissing ["Patient"] ≠ [] ∧
        joinedPairs tX5 tXMissing ["Patient"] ≠ [] ∧
        parse_conflicts tX5 tXMissing ["Patient"] [] = (false, [])) := by
  constructor
  · exact ⟨by decide,
      (parse_conflicts_boolean_convention tOnlyA tOnlyB ["Patient"] []
        (by decide) (by decide)).1 (by decide)⟩
  · exact ⟨by decide, by decide,
      (parse_conflicts_boolean_convention tX5 tXMissing ["Patient"] []
        (by decide) (by decide)).2 (by decide) (by decide) (by decide)⟩

/-- C5 (amended): in `sanity_check_dataframes`, when the left shared
column has the pandas `str` dtype, both sides are normalized before
comparison, so normalization-equal cells are never conflicts. -/
theorem sanity_str_normalized_no_conflict (df1 df2 : Table)
    (keys : List String) (col : String) (i : Nat) (r1 r2 : List Value)
    (hdt : df1.colDtype col = Dtype.str)
    (hp : (joinedPairs df1 df2 keys)[i]? = some (r1, r2))
    (hn : normalizeValue (df1.cell r1 col) = normalizeValue (df2.cell r2 col)) :
    (sanityEqualSeries df1 df2 keys col)[i]? = some true := by
  rw [sanityEqualSeries, List.getElem?_map, hp, Option.map_some', hdt]
  simp [equalCell, isNumericDtype, hn]

/-- C5 counterexample: `parse_conflicts` compares raw values without
normalization, so "New York" vs "new-york" on a shared text column for
the same key IS reported as a conflict there: the `conflict` series is
`[true]` and the interactive prompt fires for column `City`, although
the two values normalize identically. -/
theorem parse_conflicts_flags_normalized_equal :
    normalizeValue (Value.text "New York") = normalizeValue (Value.text "new-york") ∧
      parseConflictSeries tCityNY tCityny ["Patient"] "City" = [true] ∧
      parse_conflicts tCityNY tCityny ["Patient"] [] = (true, ["City"]) :=
  ⟨by decide, by decide, by decide⟩

/-- Witness for `sanity_str_normalized_no_conflict` at the spec's
"New York" vs "new-york" example. -/
theorem sanity_str_normalized_no_conflict_witness :
    tCityNY.colDtype "City" = Dtype.str ∧
      (joinedPairs tCityNY tCityny ["Patient"])[0]? =
        some ([Value.num 1, Value.text "New York"],
          [Value.num 1, Value.text "new-york"]) ∧
      (sanityEqualSeries tCityNY tCityny ["Patient"] "City")[0]? = some true :=
  ⟨by decide, by decide,
    sanity_str_normalized_no_conflict tCityNY tCityny ["Patient"] "City" 0
      [Value.num 1, Value.text "New York"] [Value.num 1, Value.text "new-york"]
      (by decide) (by decide) (by decide)⟩

/-- C8 (amended): for a path whose lowered extension is not in the
reader registry, `read_file` returns `None` — it does not fail. -/
theorem read_file_none_of_unsupported (file : String)
    (h : fileSuffixLower file ∉ readerExts) :
    read_file file = none := by
  rw [read_file, readerFor]
  simp only [readerExts, List.mem_cons, List.not_mem_nil, or_false, not_or] at h
  obtain ⟨h1, h2, h3, h4⟩ := h
  simp [h1, h2, h3, h4]

/-- C8 counterexample: on an unrecognized extension the loader returns
`None` (Python `read_file` falls through to `return None`) instead of
failing with an UnsupportedFormat error. -/
theorem read_file_returns_none_unknown_ext :
    read_file "foo.txt" = none := rfl

/-- Witness for `read_file_none_of_unsupported` at `data.json`. -/
theorem read_file_none_of_unsupported_witness :
    fileSuffixLower "data.json" ∉ readerExts ∧ read_file "data.json" = none :=
  ⟨by decide, read_file_none_of_unsupported "data.json" (by decide)⟩

/-! ### Consolidation lemmas -/

theorem idxOf?_of_mem (col : String) (names : List String) (h : col ∈ names) :
    ∃ i, idxOf? col names = some i := by
  induction names with
  | nil => cases h
  | cons c cs ih =>
    rw [idxOf?]
    by_cases hc : c = col
    · exact ⟨0, by rw [if_pos hc]⟩
    · obtain ⟨i, hi⟩ := ih (by
        rcases List.mem_cons.mp h with rfl | h'
        · exact absurd rfl hc
        · exact h')
      exact ⟨i + 1, by rw [if_neg hc, hi]; rfl⟩

theorem getD_map_of_idxOf? (names : List String) (f : String → Value)
    (col : String) (i : Nat) (h : idxOf? col names = some i) (d : Value) :
    (names.map f).getD i d = f col := by
  induction names generalizing i with
  | nil => simp [idxOf?] at h
  | cons c cs ih =>
    rw [idxOf?] at h
    by_cases hc : c = col
    · rw [if_pos hc] at h
      cases h
      rw [List.map_cons]
      simpa using congrArg f hc
    · rw [if_neg hc] at h
      cases hj : idxOf? col cs with
      | none => rw [hj] at h; cases h
      | some j =>
        rw [hj] at h
        cases h
        rw [List.map_cons, List.getD_cons_succ]
        exact ih j hj

theorem lookupVal_cons_head (key : String) (rest : List String)
    (v : Value) (vals : List Value) :
    lookupVal (key :: rest) (v :: vals) key = v := by
  simp [lookupVal, idxOf?]

theorem lookupVal_cons_map (key : String) (rest : List String)
    (k : Value) (f : String → Value) (col : String)
    (hne : col ≠ key) (hmem : col ∈ rest) :
    lookupVal (key :: rest) (k :: rest.map f) col = f col := by
  obtain ⟨i, hi⟩ := idxOf?_of_mem col rest hmem
  rw [lookupVal, idxOf?, if_neg (fun h => hne h.symm), hi]
  show (k :: List.map f rest).getD (i + 1) Value.missing = f col
  rw [List.getD_cons_succ]
  exact getD_map_of_idxOf? rest f col i hi _

theorem mem_firstSeenAux (l : List Value) (x : Value) :
    ∀ seen, x ∈ firstSeenAux l seen ↔ x ∈ l ∧ x ∉ seen := by
  induction l with
  | nil => intro seen; simp [firstSeenAux]
  | cons v vs ih =>
    intro seen
    rw [firstSeenAux]
    by_cases hv : v ∈ seen
    · rw [if_pos hv, ih]
      constructor
      · rintro ⟨hx, hs⟩
        exact ⟨List.mem_cons_of_mem v hx, hs⟩
      · rintro ⟨hx, hs⟩
        rcases List.mem_cons.mp hx with rfl | hx'
        · exact absurd hv hs
        · exact ⟨hx', hs⟩
    · rw [if_neg hv]
      constructor
      · intro hx
        rcases List.mem_cons.mp hx with rfl | hx'
        · exact ⟨List.mem_cons_self _ _, hv⟩
        · obtain ⟨h1, h2⟩ := (ih _).mp hx'
          exact ⟨List.mem_cons_of_mem _ h1,
            fun hs => h2 (List.mem_cons_of_mem _ hs)⟩
      · rintro ⟨hx, hs⟩
        rcases List.mem_cons.mp hx with rfl | hx'
        · exact List.mem_cons_self _ _
        · by_cases hxv : x = v
          · subst hxv
            exact List.mem_cons_self _ _
          · refine List.mem_cons_of_mem _ ((ih _).mpr ⟨hx', fun h => ?_⟩)
            rcases List.mem_cons.mp h with h' | h'
            · exact hxv h'
            · exact hs h'

theorem nodup_firstSeenAux (l : List Value) :
    ∀ seen, (firstSeenAux l seen).Nodup := by
  induction l with
  | nil => intro seen; simp [firstSeenAux]
  | cons v vs ih =>
    intro seen
    rw [firstSeenAux]
    by_cases hv : v ∈ seen
    · rw [if_pos hv]; exact ih seen
    · rw [if_neg hv]
      refine List.nodup_cons.mpr ⟨fun hmem => ?_, ih _⟩
      exact ((mem_firstSeenAux vs v _).mp hmem).2 (List.mem_cons_self _ _)

theorem filter_singleton_of_nodup (ks : List Value) (k : Value)
    (hd : ks.Nodup) (hm : k ∈ ks) :
    ks.filter (fun x => decide (x = k)) = [k] := by
  induction ks with
  | nil => cases hm
  | cons a as ih =>
    rw [List.filter_cons]
    by_cases ha : a = k
    · subst ha
      rw [if_pos (by simp)]
      have hk : a ∉ as := (List.nodup_cons.mp hd).1
      rw [List.filter_eq_nil_iff.mpr (fun x hx => by
        simp only [decide_eq_true_eq]
        rintro rfl
        exact hk hx)]
    · rw [if_neg (by simp [ha])]
      refine ih (List.nodup_cons.mp hd).2 ?_
      rcases List.mem_cons.mp hm with rfl | h'
      · exact absurd rfl ha
      · exact h'

theorem find?_map_eq {α β : Type} (f : α → β) (p : β → Bool) (l : List α) :
    (l.map f).find? p = Option.map f (l.find? (fun a => p (f a))) := by
  induction l with
  | nil => rfl
  | cons a as ih =>
    rw [List.map_cons, List.find?_cons, List.find?_cons]
    cases hpa : p (f a) <;> simp [hpa, ih]

theorem find?_congr_pred {α : Type} (p q : α → Bool) (l : List α)
    (h : ∀ a ∈ l, p a = q a) : l.find? p = l.find? q := by
  induction l with
  | nil => rfl
  | cons a as ih =>
    rw [List.find?_cons, List.find?_cons, h a (List.mem_cons_self a as)]
    cases q a
    · exact ih fun x hx => h x (List.mem_cons_of_mem _ hx)
    · rfl

theorem find?_eq_some_of_mem (ks : List Value) (k : Value) (h : k ∈ ks) :
    ks.find? (fun x => decide (x = k)) = some k := by
  induction ks with
  | nil => cases h
  | cons a as ih =>
    rw [List.find?_cons]
    by_cases ha : a = k
    · subst ha; simp
    · rw [show (decide (a = k)) = false by simp [ha]]
      refine ih ?_
      rcases List.mem_cons.mp h with rfl | h'
      · exact absurd rfl ha
      · exact h'

theorem Value.isna_eq_false (v : Value) (h : v ≠ Value.missing) :
    v.isna = false := by
  cases v with
  | missing => exact absurd rfl h
  | num n => rfl
  | text s => rfl

theorem mem_unionCols (dfs : List Table) (c : String)
    (h : ∃ t ∈ dfs, c ∈ t.colNames) : c ∈ unionCols dfs := by
  rw [unionCols]
  suffices hgen : ∀ acc : List String,
      (c ∈ acc ∨ ∃ t ∈ dfs, c ∈ t.colNames) →
      c ∈ dfs.foldl
        (fun acc t => acc ++ t.colNames.filter (fun x => !decide (x ∈ acc))) acc by
    exact hgen [] (Or.inr h)
  clear h
  induction dfs with
  | nil =>
    intro acc h
    rcases h with h | ⟨t, ht, _⟩
    · exact h
    · cases ht
  | cons t ts ih =>
    intro acc h
    rw [List.foldl_cons]
    refine ih _ ?_
    rcases h with h | ⟨t', ht', hc⟩
    · exact Or.inl (List.mem_append_left _ h)
    · rcases List.mem_cons.mp ht' with rfl | ht''
      · by_cases hacc : c ∈ acc
        · exact Or.inl (List.mem_append_left _ hacc)
        · exact Or.inl (List.mem_append_right _
            (List.mem_filter.mpr ⟨hc, by simp [hacc]⟩))
      · exact Or.inr ⟨t', ht'', hc⟩

theorem concatTables_colNames (dfs : List Table) :
    (concatTables dfs).colNames = unionCols dfs := rfl

/-- A successful `merge_patient_dataframes` run produces exactly the
grouped-and-collapsed concatenation. -/
theorem merge_ok_elim (dfs : List Table) (key : String) (m : Table)
    (hok : merge_patient_dataframes dfs key = .ok m) :
    m = groupbyFirstTable (concatTables dfs) key := by
  rw [merge_patient_dataframes] at hok
  split at hok
  · cases hok
  · rw [groupbyFirst] at hok
    split at hok
    · cases hok
    · exact (Except.ok.inj hok).symm

/-- The group labels are pairwise distinct. -/
theorem nodup_groupKeys (t : Table) (key : String) : (groupKeys t key).Nodup := by
  rw [groupKeys]
  exact nodup_firstSeenAux _ []

/-- Membership in the group labels. -/
theorem mem_groupKeys (t : Table) (key : String) (k : Value)
    (hk : k ≠ Value.missing) (hmem : k ∈ t.colVals key) :
    k ∈ groupKeys t key := by
  rw [groupKeys]
  refine (mem_firstSeenAux _ k []).mpr ⟨?_, List.not_mem_nil k⟩
  refine List.mem_filter.mpr ⟨?_, by rw [Value.isna_eq_false k hk]; rfl⟩
  exact hmem

/-- The key cell of a collapsed group row is the group label. -/
theorem cell_groupbyFirstTable_key (t : Table) (key : String) (k' : Value) :
    Table.cell (groupbyFirstTable t key)
      (groupRow t key (t.colNames.filter (fun c => !decide (c = key))) k') key
      = k' := by
  rw [Table.cell, groupbyFirstTable, groupRow]
  exact lookupVal_cons_head _ _ _ _

/-- C7 (amended): consolidation succeeds whenever at least one input
table has the key column (rows of the other tables get a NaN key after
`pd.concat` and are silently dropped by `groupby`); it fails only when
the key column is absent from every input (KeyError) or when the input
list is empty. -/
theorem merge_ok_of_key_in_some_table (dfs : List Table) (key : String)
    (hne : dfs ≠ []) (hk : ∃ t ∈ dfs, key ∈ t.colNames) :
    merge_patient_dataframes dfs key =
      .ok (groupbyFirstTable (concatTables dfs) key) := by
  have he : dfs.isEmpty = false := by
    cases dfs with
    | nil => exact absurd rfl hne
    | cons a as => rfl
  obtain ⟨i, hi⟩ := idxOf?_of_mem key (unionCols dfs) (mem_unionCols dfs key hk)
  rw [merge_patient_dataframes, he]
  rw [show (if (false = true) then (Except.error "No objects to concatenate")
    else groupbyFirst (concatTables dfs) key) = groupbyFirst (concatTables dfs) key
    from rfl]
  rw [groupbyFirst, concatTables_colNames, hi]

/-- Witness for `merge_ok_of_key_in_some_table`: the second table of
`dfsNoKey` lacks the key, yet consolidation succeeds. -/
theorem merge_ok_of_key_in_some_table_witness :
    dfsNoKey ≠ [] ∧ (∃ t ∈ dfsNoKey, "Patient" ∈ t.colNames) ∧
      merge_patient_dataframes dfsNoKey "Patient" =
        .ok (groupbyFirstTable (concatTables dfsNoKey) "Patient") :=
  ⟨by decide, by decide,
    merge_ok_of_key_in_some_table dfsNoKey "Patient" (by decide) (by decide)⟩

/-- C7 counterexample: with `dfsNoKey = [tAge40, tNoKey]`, where
`tNoKey` lacks the `Patient` column, consolidation does NOT fail with a
Configuration error: it returns a table, and the `tNoKey` row has been
silently discarded (its key was NaN after concatenation). -/
theorem merge_succeeds_missing_key_column :
    merge_patient_dataframes dfsNoKey "Patient" =
      .ok ⟨["Patient", "Age", "Sex"], [.object, .numeric, .object],
        [[.num 1, .num 40, .missing]]⟩ := rfl

/-- C4 (amended): every distinct NON-MISSING key value occurring in the
concatenated input appears exactly once in the consolidated output, and
the key column is an output column; rows whose key is missing are
dropped (see the counterexample). -/
theorem nonmissing_key_exactly_once (dfs : List Table) (key : String)
    (m : Table) (k : Value)
    (hok : merge_patient_dataframes dfs key = .ok m)
    (hk : k ≠ Value.missing)
    (hmem : k ∈ (concatTables dfs).colVals key) :
    key ∈ m.colNames ∧
      (m.rows.filter (fun r => decide (Table.cell m r key = k))).length = 1 := by
  have hm := merge_ok_elim dfs key m hok
  subst hm
  constructor
  · exact List.mem_cons_self _ _
  · rw [show (groupbyFirstTable (concatTables dfs) key).rows =
      (groupKeys (concatTables dfs) key).map
        (groupRow (concatTables dfs) key
          ((concatTables dfs).colNames.filter (fun c => !decide (c = key))))
      from rfl]
    rw [List.filter_map]
    rw [List.length_map]
    rw [List.filter_congr (fun k' _ => by
      rw [Function.comp_apply, cell_groupbyFirstTable_key])]
    rw [filter_singleton_of_nodup _ k (nodup_groupKeys _ key)
      (mem_groupKeys _ key k hk hmem)]
    rfl

/-- Witness for `nonmissing_key_exactly_once` on the coalesce example:
key 1 appears exactly once in the output. -/
theorem nonmissing_key_exactly_once_witness :
    "Patient" ∈ mCoalesce.colNames ∧
      (mCoalesce.rows.filter (fun r =>
        decide (Table.cell mCoalesce r "Patient" = Value.num 1))).length = 1 :=
  nonmissing_key_exactly_once dfsCoalesce "Patient" mCoalesce (Value.num 1)
    (by rfl) (by decide) (by decide)

/-- C4 counterexample: a row whose key value is missing is discarded —
the input has one row (`Patient = NaN, x = 5`) and the output has no
rows at all, so not every key value of the input appears in the
output. -/
theorem missing_key_entity_dropped :
    merge_patient_dataframes [tKeyMissing] "Patient" =
      .ok ⟨["Patient", "x"], [.object, .numeric], []⟩ := rfl

/-- C3: consolidation is a per-column coalesce.  For every input list,
non-missing key value `k` and non-key column of the concatenation, the
output row found under `k` carries, in that column, the first
non-missing value (in vertical source order) among the concatenated
rows whose key is `k`. -/
theorem consolidation_coalesce (dfs : List Table) (key : String) (m : Table)
    (k : Value) (col : String)
    (hok : merge_patient_dataframes dfs key = .ok m)
    (hk : k ≠ Value.missing)
    (hmem : k ∈ (concatTables dfs).colVals key)
    (hcol : col ∈ (concatTables dfs).colNames) (hck : col ≠ key) :
    ∃ r, lookupRowByKey m key k = some r ∧
      Table.cell m r col =
        firstNonMissing
          (((concatTables dfs).rows.filter (fun row =>
            decide (Table.cell (concatTables dfs) row key = k))).map
            (fun row => Table.cell (concatTables dfs) row col)) := by
  have hm := merge_ok_elim dfs key m hok
  subst hm
  set T := concatTables dfs with hT
  set rest := T.colNames.filter (fun c => !decide (c = key)) with hrest
  refine ⟨groupRow T key rest k, ?_, ?_⟩
  · rw [lookupRowByKey]
    rw [show (groupbyFirstTable T key).rows =
      (groupKeys T key).map (groupRow T key rest) from rfl]
    rw [find?_map_eq]
    rw [find?_congr_pred _ (fun k' => decide (k' = k)) _ (fun k' _ => by
      rw [cell_groupbyFirstTable_key])]
    rw [find?_eq_some_of_mem _ k (mem_groupKeys T key k hk hmem), Option.map_some']
  · have hcr : col ∈ rest := by
      rw [hrest]
      exact List.mem_filter.mpr ⟨hcol, by simp [hck]⟩
    rw [Table.cell,
      show (groupbyFirstTable T key).colNames = key :: rest from rfl,
      groupRow]
    exact lookupVal_cons_map key rest k _ col hck hcr

/-- Witness for `consolidation_coalesce` on the spec's scenario:
`(key=1, x=NaN)` stacked above `(key=1, x=5)` yields `x = 5` for
key 1. -/
theorem consolidation_coalesce_witness :
    (∃ r, lookupRowByKey mCoalesce "Patient" (Value.num 1) = some r ∧
      Table.cell mCoalesce r "x" =
        firstNonMissing
          (((concatTables dfsCoalesce).rows.filter (fun row =>
            decide (Table.cell (concatTables dfsCoalesce) row "Patient" =
              Value.num 1))).map
            (fun row => Table.cell (concatTables dfsCoalesce) row "x"))) ∧
      firstNonMissing
          (((concatTables dfsCoalesce).rows.filter (fun row =>
            decide (Table.cell (concatTables dfsCoalesce) row "Patient" =
              Value.num 1))).map
            (fun row => Table.cell (concatTables dfsCoalesce) row "x")) =
        Value.num 5 :=
  ⟨consolidation_coalesce dfsCoalesce "Patient" mCoalesce (Value.num 1) "x"
    (by rfl) (by decide) (by decide) (by decide) (by decide), by decide⟩

/-! ### Idempotence of the normalizer

First: every character produced by each stage is left untouched by a
second pass.  Then: the output of a full pass is in `NormalForm`, and
`normalizeStr` is the identity on `NormalForm` strings. -/

theorem pyCaseFoldChar_fixed (c d : Char) (hd : d ∈ pyCaseFoldChar c) :
    pyCaseFoldChar d = [d] := by
  rw [pyCaseFoldChar] at hd
  split_ifs at hd with h1 h2 h3 h4 h5
  · rcases List.mem_cons.mp hd with rfl | hd'
    · decide
    · rcases List.mem_cons.mp hd' with rfl | hd''
      · decide
      · cases hd''
  · rcases List.mem_cons.mp hd with rfl | hd'
    · decide
    · cases hd'
  · rcases List.mem_cons.mp hd with rfl | hd'
    · decide
    · cases hd'
  · rcases List.mem_cons.mp hd with rfl | hd'
    · decide
    · cases hd'
  · have hc : c ∈ upperAscii := of_decide_eq_true h5
    rcases List.mem_cons.mp hd with rfl | hd'
    · fin_cases hc <;> decide
    · cases hd'
  · rcases List.mem_cons.mp hd with rfl | hd'
    · rw [pyCaseFoldChar, if_neg h1, if_neg h2, if_neg h3, if_neg h4, if_neg h5]
    · cases hd'

theorem caseFold_chars (s : List Char) (d : Char) (hd : d ∈ caseFold s) :
    pyCaseFoldChar d = [d] := by
  rw [caseFold] at hd
  obtain ⟨c, _, hdc⟩ := List.mem_flatMap.mp hd
  exact pyCaseFoldChar_fixed c d hdc

theorem mem_replaceChar (a b c : Char) (l : List Char)
    (h : c ∈ replaceChar a b l) : c = b ∨ (c ∈ l ∧ c ≠ a) := by
  rw [replaceChar] at h
  obtain ⟨x, hx, hxc⟩ := List.mem_map.mp h
  by_cases hxa : x = a
  · rw [if_pos hxa] at hxc
    exact Or.inl hxc.symm
  · rw [if_neg hxa] at hxc
    subst hxc
    exact Or.inr ⟨hx, hxa⟩

theorem mem_expandChar (a : Char) (rep : List Char) (c : Char) (l : List Char)
    (h : c ∈ expandChar a rep l) : c ∈ rep ∨ (c ∈ l ∧ c ≠ a) := by
  rw [expandChar] at h
  obtain ⟨x, hx, hxc⟩ := List.mem_flatMap.mp h
  by_cases hxa : x = a
  · rw [if_pos hxa] at hxc
    exact Or.inl hxc
  · rw [if_neg hxa] at hxc
    rcases List.mem_cons.mp hxc with rfl | h'
    · exact Or.inr ⟨hx, hxa⟩
    · cases h'

theorem mem_collapseWsAux (c : Char) (l : List Char) :
    ∀ b : Bool, c ∈ collapseWsAux b l → c = ' ' ∨ (c ∈ l ∧ isWs c = false) := by
  induction l with
  | nil =>
    intro b h
    cases h
  | cons x xs ih =>
    intro b h
    rw [collapseWsAux] at h
    by_cases hx : isWs x = true
    · rw [if_pos hx] at h
      cases b with
      | true =>
        rcases ih true h with h' | ⟨h1, h2⟩
        · exact Or.inl h'
        · exact Or.inr ⟨List.mem_cons_of_mem _ h1, h2⟩
      | false =>
        rcases List.mem_cons.mp h with rfl | h'
        · exact Or.inl rfl
        · rcases ih true h' with h'' | ⟨h1, h2⟩
          · exact Or.inl h''
          · exact Or.inr ⟨List.mem_cons_of_mem _ h1, h2⟩
    · rw [if_neg hx] at h
      rcases List.mem_cons.mp h with rfl | h'
      · exact Or.inr ⟨List.mem_cons_self _ _, Bool.eq_false_iff.mpr hx⟩
      · rcases ih false h' with h'' | ⟨h1, h2⟩
        · exact Or.inl h''
        · exact Or.inr ⟨List.mem_cons_of_mem _ h1, h2⟩

theorem head_collapseWsAux_true (l : List Char) :
    ∀ c ∈ (collapseWsAux true l).head?, isWs c = false := by
  induction l with
  | nil =>
    intro c hc
    cases hc
  | cons x xs ih =>
    intro c hc
    rw [collapseWsAux] at hc
    by_cases hx : isWs x = true
    · rw [if_pos hx, if_pos rfl] at hc
      exact ih c hc
    · rw [if_neg hx, List.head?_cons, Option.mem_def] at hc
      injection hc with h
      subst h
      exact Bool.eq_false_iff.mpr hx

theorem chain'_collapseWsAux (l : List Char) :
    ∀ b : Bool, List.Chain' NoTwoWs (collapseWsAux b l) := by
  induction l with
  | nil =>
    intro b
    exact List.chain'_nil
  | cons x xs ih =>
    intro b
    rw [collapseWsAux]
    by_cases hx : isWs x = true
    · rw [if_pos hx]
      cases b with
      | true => exact ih true
      | false =>
        rw [if_neg (by simp)]
        rw [List.chain'_cons']
        refine ⟨fun y hy => ?_, ih true⟩
        rw [NoTwoWs]
        rintro ⟨-, h2⟩
        rw [head_collapseWsAux_true xs y hy] at h2
        cases h2
    · rw [if_neg hx, List.chain'_cons']
      refine ⟨fun y hy => ?_, ih false⟩
      rw [NoTwoWs]
      rintro ⟨h1, -⟩
      exact hx h1

theorem head_dropWhile_false (p : Char → Bool) (l : List Char) :
    ∀ c ∈ (l.dropWhile p).head?, p c = false := by
  induction l with
  | nil =>
    intro c hc
    cases hc
  | cons x xs ih =>
    intro c hc
    rw [List.dropWhile_cons] at hc
    by_cases hx : p x = true
    · rw [if_pos hx] at hc
      exact ih c hc
    · rw [if_neg hx, List.head?_cons, Option.mem_def] at hc
      injection hc with h
      subst h
      exact Bool.eq_false_iff.mpr hx

theorem rstrip_append (l : List Char) :
    rstripWs l ++ (l.reverse.takeWhile isWs).reverse = l := by
  rw [rstripWs, ← List.reverse_append, List.takeWhile_append_dropWhile,
    List.reverse_reverse]

theorem head_rstripWs (l : List Char) (c : Char) (hc : c ∈ (rstripWs l).head?) :
    c ∈ l.head? := by
  have h := rstrip_append l
  cases he : rstripWs l with
  | nil =>
    rw [he] at hc
    cases hc
  | cons x xs =>
    rw [he] at hc h
    rw [← h, List.cons_append, List.head?_cons]
    rw [List.head?_cons] at hc
    exact hc

theorem getLast?_rstripWs (l : List Char) (c : Char)
    (hc : c ∈ (rstripWs l).getLast?) : isWs c = false := by
  rw [rstripWs, List.getLast?_reverse] at hc
  exact head_dropWhile_false isWs l.reverse c hc

theorem chain'_dropWhile {α : Type} (R : α → α → Prop) (p : α → Bool)
    (l : List α) (h : List.Chain' R l) : List.Chain' R (l.dropWhile p) := by
  induction l with
  | nil => exact h
  | cons x xs ih =>
    rw [List.dropWhile_cons]
    by_cases hx : p x = true
    · rw [if_pos hx]
      exact ih (List.chain'_cons'.mp h).2
    · rw [if_neg hx]
      exact h

theorem chain'_rstripWs (l : List Char) (h : List.Chain' NoTwoWs l) :
    List.Chain' NoTwoWs (rstripWs l) := by
  rw [rstripWs, List.chain'_reverse]
  exact chain'_dropWhile (flip NoTwoWs) isWs l.reverse
    (List.chain'_reverse.mpr (show List.Chain' (flip (flip NoTwoWs)) l from h))

theorem chain'_stripWs (l : List Char) (h : List.Chain' NoTwoWs l) :
    List.Chain' NoTwoWs (stripWs l) :=
  chain'_rstripWs _ (chain'_dropWhile NoTwoWs isWs l h)

theorem mem_stripWs (l : List Char) (c : Char) (h : c ∈ stripWs l) : c ∈ l := by
  rw [stripWs] at h
  have h1 : c ∈ lstripWs l := by
    have happ := rstrip_append (lstripWs l)
    rw [← happ]
    exact List.mem_append_left _ h
  rw [lstripWs] at h1
  exact (List.dropWhile_sublist isWs).subset h1

theorem head_stripWs (l : List Char) (c : Char) (hc : c ∈ (stripWs l).head?) :
    isWs c = false := by
  rw [stripWs] at hc
  have h1 := head_rstripWs (lstripWs l) c hc
  rw [lstripWs] at h1
  exact head_dropWhile_false isWs l c h1

theorem preNorm_chars (s : List Char) (c : Char) (hc : c ∈ preNorm s) :
    pyCaseFoldChar c = [c] ∧ c ≠ '-' ∧ c ≠ 'ä' ∧ c ≠ 'ö' ∧ c ≠ 'ü' := by
  rw [preNorm] at hc
  rcases mem_replaceChar '-' ' ' c _ hc with rfl | ⟨hc1, _⟩
  · decide
  rcases mem_expandChar 'ü' ['u','e'] c _ hc1 with hrep | ⟨hc2, hu⟩
  · rcases List.mem_cons.mp hrep with rfl | hrep'
    · decide
    rcases List.mem_cons.mp hrep' with rfl | hrep''
    · decide
    · cases hrep''
  rcases mem_expandChar 'ö' ['o','e'] c _ hc2 with hrep | ⟨hc3, ho⟩
  · rcases List.mem_cons.mp hrep with rfl | hrep'
    · decide
    rcases List.mem_cons.mp hrep' with rfl | hrep''
    · decide
    · cases hrep''
  rcases mem_expandChar 'ä' ['a','e'] c _ hc3 with hrep | ⟨hc4, ha⟩
  · rcases List.mem_cons.mp hrep with rfl | hrep'
    · decide
    rcases List.mem_cons.mp hrep' with rfl | hrep''
    · decide
    · cases hrep''
  rcases mem_replaceChar '-' ' ' c _ hc4 with rfl | ⟨hc5, hdash⟩
  · decide
  exact ⟨caseFold_chars s c hc5, hdash, ha, ho, hu⟩

theorem normalizeStr_normalForm (s : List Char) : NormalForm (normalizeStr s) := by
  rw [NormalForm]
  refine ⟨?_, ?_, ?_, ?_⟩
  · intro c hc
    rw [normalizeStr] at hc
    have hc' : c ∈ collapseWs (preNorm s) := mem_stripWs _ c hc
    rw [collapseWs] at hc'
    rw [canonChar]
    rcases mem_collapseWsAux c _ false hc' with rfl | ⟨hcm, hws⟩
    · exact ⟨by decide, by decide, by decide, by decide, by decide, fun _ => rfl⟩
    · obtain ⟨h1, h2, h3, h4, h5⟩ := preNorm_chars s c hcm
      exact ⟨h1, h2, h3, h4, h5, fun hw => absurd hw (by simp [hws])⟩
  · rw [normalizeStr, collapseWs]
    exact chain'_stripWs _ (chain'_collapseWsAux (preNorm s) false)
  · intro c hc
    rw [normalizeStr] at hc
    exact head_stripWs _ c hc
  · intro c hc
    rw [normalizeStr, stripWs] at hc
    exact getLast?_rstripWs _ c hc

theorem caseFold_id (l : List Char) (h : ∀ c ∈ l, pyCaseFoldChar c = [c]) :
    caseFold l = l := by
  induction l with
  | nil => rfl
  | cons c cs ih =>
    rw [caseFold, List.flatMap_cons, h c (List.mem_cons_self c cs)]
    have ih' := ih (fun x hx => h x (List.mem_cons_of_mem _ hx))
    rw [caseFold] at ih'
    rw [ih', List.singleton_append]

theorem replaceChar_id (a b : Char) (l : List Char) (h : ∀ c ∈ l, c ≠ a) :
    replaceChar a b l = l := by
  induction l with
  | nil => rfl
  | cons c cs ih =>
    rw [replaceChar, List.map_cons, if_neg (h c (List.mem_cons_self c cs))]
    have ih' := ih (fun x hx => h x (List.mem_cons_of_mem _ hx))
    rw [replaceChar] at ih'
    rw [ih']

theorem expandChar_id (a : Char) (rep : List Char) (l : List Char)
    (h : ∀ c ∈ l, c ≠ a) : expandChar a rep l = l := by
  induction l with
  | nil => rfl
  | cons c cs ih =>
    rw [expandChar, List.flatMap_cons, if_neg (h c (List.mem_cons_self c cs))]
    have ih' := ih (fun x hx => h x (List.mem_cons_of_mem _ hx))
    rw [expandChar] at ih'
    rw [ih', List.singleton_append]

theorem collapseWsAux_true_eq (l : List Char)
    (h : ∀ c ∈ l.head?, isWs c = false) :
    collapseWsAux true l = collapseWsAux false l := by
  cases l with
  | nil => rfl
  | cons x xs =>
    have hx : isWs x = false := h x (by rw [List.head?_cons]; exact Option.mem_def.mpr rfl)
    rw [collapseWsAux, collapseWsAux, if_neg (by simp [hx]), if_neg (by simp [hx])]

theorem collapseWsAux_id (l : List Char)
    (hws : ∀ c ∈ l, isWs c = true → c = ' ')
    (hch : List.Chain' NoTwoWs l) :
    collapseWsAux false l = l := by
  induction l with
  | nil => rfl
  | cons x xs ih =>
    have ihx := ih (fun c hc hw => hws c (List.mem_cons_of_mem _ hc) hw)
      (List.chain'_cons'.mp hch).2
    by_cases hx : isWs x = true
    · have hxsp : x = ' ' := hws x (List.mem_cons_self x xs) hx
      have hhead : ∀ c ∈ xs.head?, isWs c = false := by
        intro c hc
        have hr := (List.chain'_cons'.mp hch).1 c hc
        rw [NoTwoWs] at hr
        by_cases hcw : isWs c = true
        · exact absurd ⟨hx, hcw⟩ hr
        · exact Bool.eq_false_iff.mpr hcw
      rw [collapseWsAux, if_pos hx, if_neg (by simp), collapseWsAux_true_eq xs hhead,
        ihx, hxsp]
    · rw [collapseWsAux, if_neg hx, ihx]

theorem lstripWs_id (l : List Char) (h : ∀ c ∈ l.head?, isWs c = false) :
    lstripWs l = l := by
  cases l with
  | nil => rfl
  | cons x xs =>
    have hx := h x (by rw [List.head?_cons]; exact Option.mem_def.mpr rfl)
    rw [lstripWs, List.dropWhile_cons, if_neg (by simp [hx])]

theorem rstripWs_id (l : List Char) (h : ∀ c ∈ l.getLast?, isWs c = false) :
    rstripWs l = l := by
  have h' : ∀ c ∈ l.reverse.head?, isWs c = false := by
    intro c hc
    rw [List.head?_reverse] at hc
    exact h c hc
  have hd := lstripWs_id l.reverse h'
  rw [lstripWs] at hd
  rw [rstripWs, hd, List.reverse_reverse]

theorem normalizeStr_id_of_normalForm (l : List Char) (h : NormalForm l) :
    normalizeStr l = l := by
  rw [NormalForm] at h
  obtain ⟨hc, hch, hh, hl⟩ := h
  have hcanon : ∀ c ∈ l, pyCaseFoldChar c = [c] ∧ c ≠ '-' ∧ c ≠ 'ä' ∧ c ≠ 'ö' ∧
      c ≠ 'ü' ∧ (isWs c = true → c = ' ') := by
    intro c hcl
    have := hc c hcl
    rw [canonChar] at this
    exact this
  rw [normalizeStr, preNorm]
  rw [caseFold_id l (fun c hcl => (hcanon c hcl).1)]
  rw [replaceChar_id '-' ' ' l (fun c hcl => (hcanon c hcl).2.1)]
  rw [expandChar_id 'ä' ['a','e'] l (fun c hcl => (hcanon c hcl).2.2.1)]
  rw [expandChar_id 'ö' ['o','e'] l (fun c hcl => (hcanon c hcl).2.2.2.1)]
  rw [expandChar_id 'ü' ['u','e'] l (fun c hcl => (hcanon c hcl).2.2.2.2.1)]
  rw [replaceChar_id '-' ' ' l (fun c hcl => (hcanon c hcl).2.1)]
  rw [collapseWs, collapseWsAux_id l (fun c hcl => (hcanon c hcl).2.2.2.2.2) hch]
  rw [stripWs, lstripWs_id l hh, rstripWs_id l hl]

/-- C6: the string normalizer is idempotent — for every string,
normalizing twice equals normalizing once. -/
theorem normalize_idempotent (s : List Char) :
    normalizeStr (normalizeStr s) = normalizeStr s :=
  normalizeStr_id_of_normalForm (normalizeStr s) (normalizeStr_normalForm s)

end TabJoint
